import Mathlib

/-!
Verification development for the striking-distance on-page analysis tool
(`app.py`).  Python strings are modelled as `List Char` (`Str`), pandas
missing values (`NaN` / `None`) as `Option`, and numeric cells coerced by
`pd.to_numeric(errors := coerce)` as `Option ℚ` (`none` = unparseable).
Each definition mirrors one function or pandas pipeline stage of the source.
-/

abbrev Str := List Char

/-- Model of Python `str.lower()` (`Char.toLower` on each character). -/
def pyLower (s : Str) : Str := s.map Char.toLower

/-- Whitespace test used by Python `str.strip()` with no arguments. -/
def wsP (c : Char) : Bool := c.isWhitespace

/-- Test for the slash character, used by `rstrip('/')`. -/
def slashP (c : Char) : Bool := decide (c = '/')

/-- Model of Python `str.rstrip(chars)`: remove every trailing character
satisfying `p`. -/
def rstripP (p : Char → Bool) (s : Str) : Str := (s.reverse.dropWhile p).reverse

/-- Model of Python `str.strip()`: drop leading and trailing whitespace. -/
def pyStrip (s : Str) : Str := rstripP wsP (s.dropWhile wsP)

/-- Model of Python `url.rstrip('/')`. -/
def pyRstripSlash (s : Str) : Str := rstripP slashP s

/-- Boolean test that `s` starts with the pattern `pat` (Python
`str.startswith`). -/
def startsList : Str → Str → Bool
  | [], _ => true
  | _ :: _, [] => false
  | a :: as, b :: bs => decide (a = b) && startsList as bs

/-- Boolean test that `s` ends with the suffix `suf` (Python `str.endswith`). -/
def endsList (suf s : Str) : Bool := startsList suf.reverse s.reverse

/-- Boolean test that the last character of `s` satisfies `p`. -/
def endsWithP (p : Char → Bool) (s : Str) : Bool :=
  match s.reverse.head? with
  | none => false
  | some c => p c

/-- Model of the Python substring operator `needle in hay`. -/
def inStr (needle : Str) : Str → Bool
  | [] => startsList needle []
  | c :: cs => startsList needle (c :: cs) || inStr needle cs

/-- Model of Python `str.split()` with no arguments: split on whitespace
runs, discarding empty pieces. -/
def pySplit (s : Str) : List Str :=
  (s.splitOnP wsP).filter (fun w => decide (w ≠ []))

/-- Model of `' '.join(words)`. -/
def joinWords (ws : List Str) : Str := List.intercalate [' '] ws

/-- Model of `clean_url` (app.py lines 117-125): `""` for a missing value,
otherwise `str(url).strip()` followed by `rstrip('/')`. -/
def clean_url : Option Str → Str
  | none => []
  | some u => pyRstripSlash (pyStrip u)

/-- The three English articles tried by the matcher (app.py line 159). -/
def articles : List Str := [('a') :: [], ('a') :: ('n') :: [], ('t') :: ('h') :: ('e') :: []]

/-- Article variations of the keyword (app.py lines 155-171): the article
inserted at every word position, plus — when the keyword contains an
article — the keyword with all standalone articles removed. -/
def articleCandidates (words : List Str) : List Str :=
  ((List.range (words.length + 1)).flatMap (fun i =>
    articles.map (fun art => joinWords (words.take i ++ art :: words.drop i))))
  ++ (if (words.filter (fun w => ! articles.contains w)).length < words.length
      then [joinWords (words.filter (fun w => ! articles.contains w))]
      else [])

/-- Punctuation-variant stage of the matcher (app.py lines 142-151): the
keyword followed by `?`, `!`, `.` or `:`. -/
def punctStage (kl tl : Str) : Bool :=
  [kl ++ ['?'], kl ++ ['!'], kl ++ ['.'], kl ++ [':']].any (fun v => inStr v tl)

/-- Article stage of the matcher (app.py lines 153-176). -/
def articleStage (kl tl : Str) : Bool :=
  (articleCandidates (pySplit kl)).any (fun v => inStr v tl)

/-- Plural/singular stage of the matcher (app.py lines 178-193): note the
source tests `endswith('s')` **before** `endswith('es')`, so the `es`
branch is unreachable. -/
def pluralStage (kl tl : Str) : Bool :=
  if endsList [('s')] kl then inStr kl.dropLast tl
  else if endsList (('e') :: ('s') :: []) kl then inStr kl.dropLast.dropLast tl
  else inStr (kl ++ [('s')]) tl || inStr (kl ++ ('e') :: ('s') :: []) tl

/-- Model of `check_keyword_presence` (app.py lines 127-194): `none` for
missing/empty inputs, otherwise the chain direct substring → punctuation
variants → article variations → plural folding. -/
def check_keyword_presence (keyword text : Option Str) : Option Bool :=
  match keyword, text with
  | none, _ => none
  | _, none => none
  | some kw, some txt =>
    if kw = [] ∨ txt = [] then none
    else if inStr (pyStrip (pyLower kw)) (pyLower txt) then some true
    else if punctStage (pyStrip (pyLower kw)) (pyLower txt) then some true
    else if articleStage (pyStrip (pyLower kw)) (pyLower txt) then some true
    else some (pluralStage (pyStrip (pyLower kw)) (pyLower txt))

/-- The matcher with the punctuation-variant branch removed, the comparison
point of the refinement claim that this branch never changes the verdict. -/
def check_keyword_presence_nopunct (keyword text : Option Str) : Option Bool :=
  match keyword, text with
  | none, _ => none
  | _, none => none
  | some kw, some txt =>
    if kw = [] ∨ txt = [] then none
    else if inStr (pyStrip (pyLower kw)) (pyLower txt) then some true
    else if articleStage (pyStrip (pyLower kw)) (pyLower txt) then some true
    else some (pluralStage (pyStrip (pyLower kw)) (pyLower txt))

/-- Model of `should_exclude_url` (app.py lines 196-225): parameterized
URLs (`?`, `=`, `#`) are always excluded; otherwise an entry matches only
exactly, or — for schemeless entries — as `https://entry`, `http://entry`,
or as the suffix `/entry`. -/
def should_exclude_url (url : Str) (excluded_urls : List Str) : Bool :=
  if [('?'), ('='), ('#')].any (fun c => url.contains c) then true
  else
    excluded_urls.any (fun excluded =>
      let e := pyStrip excluded
      if e = [] then false
      else
        let en := pyRstripSlash e
        decide (pyRstripSlash url = en) ||
        (! startsList (("http").data) en &&
          (decide (pyRstripSlash url = ("https://").data ++ en) ||
           decide (pyRstripSlash url = ("http://").data ++ en) ||
           endsList (('/') :: en) (pyRstripSlash url))))

/-- Lexicographic code-point comparison of strings, the order pandas uses
when sorting a string column ascending. -/
def lexLe : Str → Str → Bool
  | [], _ => true
  | _ :: _, [] => false
  | a :: as, b :: bs => if a = b then lexLe as bs else decide (a < b)

theorem lexLe_total (a b : Str) : lexLe a b = true ∨ lexLe b a = true := by
  induction a generalizing b with
  | nil => exact Or.inl rfl
  | cons x xs ih =>
    cases b with
    | nil => exact Or.inr rfl
    | cons y ys =>
      by_cases hxy : x = y
      · subst hxy
        rcases ih ys with h | h
        · exact Or.inl (by simp [lexLe, h])
        · exact Or.inr (by simp [lexLe, h])
      · rcases lt_or_gt_of_ne hxy with h | h
        · exact Or.inl (by simp [lexLe, hxy, h])
        · exact Or.inr (by simp [lexLe, Ne.symm hxy, h])

theorem lexLe_trans {a b c : Str} (h₁ : lexLe a b = true) (h₂ : lexLe b c = true) :
    lexLe a c = true := by
  induction a generalizing b c with
  | nil => rfl
  | cons x xs ih =>
    cases b with
    | nil => simp [lexLe] at h₁
    | cons y ys =>
      cases c with
      | nil => simp [lexLe] at h₂
      | cons z zs =>
        by_cases hxy : x = y <;> by_cases hyz : y = z
        · subst hxy; subst hyz
          simp only [lexLe, if_pos rfl] at h₁ h₂ ⊢
          exact ih h₁ h₂
        · subst hxy
          simp only [lexLe, if_pos rfl] at h₁
          simp only [lexLe, if_neg hyz] at h₂ ⊢
          exact h₂
        · subst hyz
          simp only [lexLe, if_neg hxy] at h₁ ⊢
          exact h₁
        · simp only [lexLe, if_neg hxy] at h₁
          simp only [lexLe, if_neg hyz] at h₂
          have hlt : x < z := lt_trans (of_decide_eq_true h₁) (of_decide_eq_true h₂)
          have hxz : x ≠ z := ne_of_lt hlt
          simp [lexLe, hxz, hlt]

theorem lexLe_antisymm {a b : Str} (h₁ : lexLe a b = true) (h₂ : lexLe b a = true) :
    a = b := by
  induction a generalizing b with
  | nil =>
    cases b with
    | nil => rfl
    | cons y ys => simp [lexLe] at h₂
  | cons x xs ih =>
    cases b with
    | nil => simp [lexLe] at h₁
    | cons y ys =>
      by_cases hxy : x = y
      · subst hxy
        simp only [lexLe, if_pos rfl] at h₁ h₂
        exact congrArg (x :: ·) (ih h₁ h₂)
      · simp only [lexLe, if_neg hxy, if_neg (Ne.symm hxy)] at h₁ h₂
        have hlt₁ : x < y := of_decide_eq_true h₁
        have hlt₂ : y < x := of_decide_eq_true h₂
        exact absurd hlt₁ (lt_asymm hlt₂)

/-- The key pandas uses for `sort_values(['URL', 'Clicks'], ascending =
[True, False])`: URL ascending, then clicks descending. -/
def keyLe {β : Type} [LinearOrder β] (u₁ u₂ : Str) (c₁ c₂ : β) : Bool :=
  if u₁ = u₂ then decide (c₂ ≤ c₁) else lexLe u₁ u₂

theorem keyLe_same {β : Type} [LinearOrder β] (u : Str) (c₁ c₂ : β) :
    keyLe u u c₁ c₂ = decide (c₂ ≤ c₁) := by
  simp [keyLe]

theorem keyLe_diff {β : Type} [LinearOrder β] {u₁ u₂ : Str} (h : u₁ ≠ u₂) (c₁ c₂ : β) :
    keyLe u₁ u₂ c₁ c₂ = lexLe u₁ u₂ := by
  simp [keyLe, h]

theorem keyLe_trans {β : Type} [LinearOrder β] {u₁ u₂ u₃ : Str} {c₁ c₂ c₃ : β}
    (h₁ : keyLe u₁ u₂ c₁ c₂ = true) (h₂ : keyLe u₂ u₃ c₂ c₃ = true) :
    keyLe u₁ u₃ c₁ c₃ = true := by
  by_cases h12 : u₁ = u₂ <;> by_cases h23 : u₂ = u₃
  · subst h12; subst h23
    rw [keyLe_same] at h₁ h₂ ⊢
    exact decide_eq_true (le_trans (of_decide_eq_true h₂) (of_decide_eq_true h₁))
  · subst h12
    rw [keyLe_diff h23] at h₂ ⊢
    exact h₂
  · subst h23
    rw [keyLe_diff h12] at h₁ ⊢
    exact h₁
  · rw [keyLe_diff h12] at h₁
    rw [keyLe_diff h23] at h₂
    have h13 : u₁ ≠ u₃ := by
      intro he
      subst he
      exact h12 (lexLe_antisymm h₁ h₂)
    rw [keyLe_diff h13]
    exact lexLe_trans h₁ h₂

theorem keyLe_total {β : Type} [LinearOrder β] (u₁ u₂ : Str) (c₁ c₂ : β) :
    keyLe u₁ u₂ c₁ c₂ = true ∨ keyLe u₂ u₁ c₂ c₁ = true := by
  by_cases h12 : u₁ = u₂
  · subst h12
    rw [keyLe_same, keyLe_same]
    rcases le_total c₂ c₁ with h | h
    · exact Or.inl (decide_eq_true h)
    · exact Or.inr (decide_eq_true h)
  · rw [keyLe_diff h12, keyLe_diff (Ne.symm h12)]
    exact lexLe_total u₁ u₂

/-- Stable insertion: `x` goes in front of the first element it compares
`le` to, so earlier input elements stay ahead of later tied ones. -/
def insertS {α : Type} (le : α → α → Bool) (x : α) : List α → List α
  | [] => [x]
  | y :: ys => if le x y then x :: y :: ys else y :: insertS le x ys

/-- Stable insertion sort, the model of pandas' stable multi-column
`sort_values` (numpy lexsort). -/
def insSort {α : Type} (le : α → α → Bool) : List α → List α
  | [] => []
  | x :: xs => insertS le x (insSort le xs)

/-- `l` is sorted for the boolean comparison `le`. -/
def SortedBy {α : Type} (le : α → α → Bool) (l : List α) : Prop :=
  l.Pairwise (fun a b => le a b = true)

theorem mem_insertS {α : Type} {le : α → α → Bool} {x a : α} {l : List α} :
    a ∈ insertS le x l ↔ a = x ∨ a ∈ l := by
  induction l with
  | nil => simp [insertS]
  | cons y ys ih =>
    simp only [insertS]
    split
    · simp
    · simp only [List.mem_cons, ih]
      tauto

theorem mem_insSort {α : Type} {le : α → α → Bool} {a : α} {l : List α} :
    a ∈ insSort le l ↔ a ∈ l := by
  induction l with
  | nil => simp [insSort]
  | cons x xs ih => simp [insSort, mem_insertS, ih]

theorem insertS_eq_cons {α : Type} {le : α → α → Bool} {x : α} {l : List α}
    (h : ∀ y ∈ l, le x y = true) : insertS le x l = x :: l := by
  cases l with
  | nil => rfl
  | cons y ys => simp [insertS, h y (List.mem_cons_self y ys)]

theorem sortedBy_insertS {α : Type} {le : α → α → Bool}
    (htr : ∀ a b c, le a b = true → le b c = true → le a c = true)
    (hto : ∀ a b, le a b = true ∨ le b a = true)
    {x : α} {l : List α} (h : SortedBy le l) : SortedBy le (insertS le x l) := by
  induction l with
  | nil => simp [insertS, SortedBy]
  | cons y ys ih =>
    rcases h with - | ⟨hy, hys⟩
    simp only [insertS]
    split
    · rename_i hxy
      refine List.Pairwise.cons ?_ (List.Pairwise.cons hy hys)
      intro b hb
      rcases List.mem_cons.mp hb with rfl | hb
      · exact hxy
      · exact htr x y b hxy (hy b hb)
    · rename_i hxy
      have hyx : le y x = true := by
        rcases hto x y with h' | h'
        · exact absurd h' hxy
        · exact h'
      refine List.Pairwise.cons ?_ (ih hys)
      intro b hb
      rcases mem_insertS.mp hb with rfl | hb
      · exact hyx
      · exact hy b hb

theorem sortedBy_insSort {α : Type} {le : α → α → Bool}
    (htr : ∀ a b c, le a b = true → le b c = true → le a c = true)
    (hto : ∀ a b, le a b = true ∨ le b a = true)
    (l : List α) : SortedBy le (insSort le l) := by
  induction l with
  | nil => exact List.Pairwise.nil
  | cons x xs ih => exact sortedBy_insertS htr hto ih

theorem insSort_of_sortedBy {α : Type} {le : α → α → Bool} {l : List α}
    (h : SortedBy le l) : insSort le l = l := by
  induction l with
  | nil => rfl
  | cons x xs ih =>
    rcases h with - | ⟨hx, hxs⟩
    simp only [insSort, ih hxs]
    exact insertS_eq_cons hx

theorem insertS_filter_pos {α : Type} {le : α → α → Bool}
    (htr : ∀ a b c, le a b = true → le b c = true → le a c = true)
    {p : α → Bool} {x : α} {l : List α}
    (hs : SortedBy le l) (hx : p x = true) :
    (insertS le x l).filter p = insertS le x (l.filter p) := by
  induction l with
  | nil => simp [insertS, List.filter, hx]
  | cons y ys ih =>
    rcases hs with - | ⟨hy, hys⟩
    simp only [insertS]
    split
    · rename_i hxy
      cases hpy : p y with
      | true =>
        simp only [List.filter_cons, hx, hpy, if_pos, cond_true]
        simp [insertS, hxy]
      | false =>
        simp only [List.filter_cons, hx, hpy, cond_true, cond_false]
        refine (insertS_eq_cons ?_).symm
        intro b hb
        have hb' := List.mem_filter.mp hb
        exact htr x y b hxy (hy b hb'.1)
    · rename_i hxy
      cases hpy : p y with
      | true =>
        simp only [List.filter_cons, hpy, cond_true, ih hys]
        simp [insertS, hxy]
      | false =>
        simp only [List.filter_cons, hpy, cond_false]
        exact ih hys

theorem insertS_filter_neg {α : Type} {le : α → α → Bool}
    {p : α → Bool} {x : α} {l : List α} (hx : p x = false) :
    (insertS le x l).filter p = l.filter p := by
  induction l with
  | nil => simp [insertS, List.filter, hx]
  | cons y ys ih =>
    simp only [insertS]
    split
    · simp [List.filter_cons, hx]
    · cases hpy : p y with
      | true => simp [List.filter_cons, hpy, ih]
      | false => simp [List.filter_cons, hpy, ih]

theorem insSort_filter {α : Type} {le : α → α → Bool}
    (htr : ∀ a b c, le a b = true → le b c = true → le a c = true)
    (hto : ∀ a b, le a b = true ∨ le b a = true)
    (p : α → Bool) (l : List α) :
    (insSort le l).filter p = insSort le (l.filter p) := by
  induction l with
  | nil => rfl
  | cons x xs ih =>
    simp only [insSort]
    cases hx : p x with
    | true =>
      rw [insertS_filter_pos htr (sortedBy_insSort htr hto xs) hx, ih]
      simp [List.filter_cons, hx, insSort]
    | false =>
      rw [insertS_filter_neg hx, ih]
      simp [List.filter_cons, hx]

theorem insertS_congr {α : Type} {le₁ le₂ : α → α → Bool} {x : α} {l : List α}
    (h : ∀ y ∈ l, le₁ x y = le₂ x y) : insertS le₁ x l = insertS le₂ x l := by
  induction l with
  | nil => rfl
  | cons y ys ih =>
    simp only [insertS, h y (List.mem_cons_self y ys)]
    split
    · rfl
    · exact congrArg (y :: ·) (ih (fun b hb => h b (List.mem_cons_of_mem y hb)))

theorem insSort_congr {α : Type} {le₁ le₂ : α → α → Bool} {l : List α}
    (h : ∀ a ∈ l, ∀ b ∈ l, le₁ a b = le₂ a b) : insSort le₁ l = insSort le₂ l := by
  induction l with
  | nil => rfl
  | cons x xs ih =>
    simp only [insSort]
    rw [ih (fun a ha b hb =>
      h a (List.mem_cons_of_mem x ha) b (List.mem_cons_of_mem x hb))]
    exact insertS_congr (fun y hy =>
      h x (List.mem_cons_self x xs) y (List.mem_cons_of_mem x (mem_insSort.mp hy)))

theorem pairwise_imp_mem {α : Type} {l : List α} {R S : α → α → Prop}
    (h : ∀ a ∈ l, ∀ b ∈ l, R a b → S a b) (hp : l.Pairwise R) : l.Pairwise S :=
  List.Pairwise.imp_of_mem (fun ha hb hr => h _ ha _ hb hr) hp

/-- A raw GSC row after column resolution: pandas cells may be missing
(`none`), numeric cells are the result of `pd.to_numeric(errors :=
coerce)`. -/
structure RawRow where
  url : Option Str
  keyword : Option Str
  clicks : Option ℚ
  pos : Option ℚ
deriving DecidableEq

/-- A GSC row after URL cleaning, empty-row dropping and clicks coercion,
before position resolution. -/
structure MidRow where
  url : Str
  keyword : Str
  clicks : ℚ
  pos : Option ℚ
deriving DecidableEq

/-- A fully cleaned GSC row (the processor's output shape). -/
structure CleanRow where
  url : Str
  keyword : Str
  clicks : ℚ
  pos : ℚ
deriving DecidableEq

/-- Fixed position band of the app (app.py lines 49-50). -/
def min_position : ℚ := 4

/-- Upper end of the fixed position band. -/
def max_position : ℚ := 20

/-- The position value the code assigns when no usable position data exists
(app.py lines 316 and 319: `df['Position'] = 10.0`). -/
def default_position : ℚ := 10

/-- Stage `df['URL'] = df['URL'].apply(clean_url)` (app.py line 289). -/
def gscStage1 (rows : List RawRow) : List RawRow :=
  rows.map (fun r => { r with url := some (clean_url r.url) })

/-- Stage dropping rows with a missing or empty URL (app.py line 290). -/
def gscStage2 (rows : List RawRow) : List RawRow :=
  rows.filter (fun r => decide (r.url.getD [] ≠ []))

/-- Stage dropping rows with a missing or empty keyword (app.py line 291). -/
def gscStage3 (rows : List RawRow) : List RawRow :=
  rows.filter (fun r =>
    match r.keyword with
    | none => false
    | some k => decide (k ≠ []))

/-- Stage dropping excluded URLs (app.py line 295). -/
def gscStage4 (excluded : List Str) (rows : List RawRow) : List RawRow :=
  rows.filter (fun r => ! should_exclude_url (r.url.getD []) excluded)

/-- Stage coercing clicks (`fillna(0)`, app.py line 301) and keeping rows
with clicks > 0 (app.py line 304). -/
def gscStage5 (rows : List RawRow) : List MidRow :=
  (rows.map (fun r =>
    ({ url := r.url.getD [], keyword := r.keyword.getD [],
       clicks := r.clicks.getD 0, pos := r.pos } : MidRow))).filter
    (fun r => decide (0 < r.clicks))

/-- Materialize a mid row with a resolved position. -/
def toClean (r : MidRow) (p : ℚ) : CleanRow :=
  { url := r.url, keyword := r.keyword, clicks := r.clicks, pos := p }

/-- Position handling (app.py lines 306-320): with a position column, keep
rows with a parseable position inside the band when at least one such row
exists, otherwise keep every row with the default position; without a
position column, assign the default to every row. -/
def positionStage (hasPosCol : Bool) (rows : List MidRow) : List CleanRow :=
  if hasPosCol then
    if (rows.filterMap (fun r => r.pos.map (toClean r))).length > 0 then
      (rows.filterMap (fun r => r.pos.map (toClean r))).filter (fun r =>
        decide (min_position ≤ r.pos) && decide (r.pos ≤ max_position))
    else rows.map (fun r => toClean r default_position)
  else rows.map (fun r => toClean r default_position)

/-- Branded-term test (app.py lines 322-327): any non-blank branded term as
a case-insensitive substring of the keyword. -/
def brandedHit (branded : List Str) (kw : Str) : Bool :=
  ((branded.map pyStrip).filter (fun t => decide (t ≠ []))).any
    (fun t => inStr (pyLower t) (pyLower kw))

/-- Branded-term exclusion stage (app.py line 327). -/
def brandedStage (branded : List Str) (rows : List CleanRow) : List CleanRow :=
  rows.filter (fun r => ! brandedHit branded r.keyword)

/-- All row-level cleaning stages of `process_gsc_data` in source order,
before the final sort (app.py lines 288-327). -/
def cleanStages (rows : List RawRow) (hasPosCol : Bool)
    (branded excluded : List Str) : List CleanRow :=
  brandedStage branded
    (positionStage hasPosCol
      (gscStage5 (gscStage4 excluded (gscStage3 (gscStage2 (gscStage1 rows))))))

/-- Sort key of `df.sort_values(['URL', 'Clicks'], ascending=[True, False])`
on cleaned rows (app.py line 330). -/
def rowLe (r₁ r₂ : CleanRow) : Bool := keyLe r₁.url r₂.url r₁.clicks r₂.clicks

/-- Clicks-descending comparison alone (the per-URL restriction of
`rowLe`). -/
def clicksDescLe (r₁ r₂ : CleanRow) : Bool := decide (r₂.clicks ≤ r₁.clicks)

/-- Model of `process_gsc_data` (app.py lines 227-336) from row-level
cleaning on: the cleaning stages followed by the stable sort by URL
ascending and clicks descending. -/
def process_gsc_data (rows : List RawRow) (hasPosCol : Bool)
    (branded excluded : List Str) : List CleanRow :=
  insSort rowLe (cleanStages rows hasPosCol branded excluded)

/-- A Screaming Frog row after `process_crawl_data`: URL plus the content
fields, absent columns already defaulted to the empty string. -/
structure CrawlRow where
  url : Str
  title : Str
  h1 : Str
  metaDesc : Str
  h2a : Str
  h2b : Str
  h2c : Str
  h2d : Str
  h2e : Str
  copy : Str
deriving DecidableEq

/-- The Body cell of a report row: a boolean, or the `"No Data"` sentinel
used when the matcher returned `None` (app.py lines 427-428). -/
inductive BodyFlag where
  | val (b : Bool)
  | noData
deriving DecidableEq

/-- One emitted report row (app.py lines 430-439).  The dict built there
has exactly these keys, in this order; the GSC position value is not
among them. -/
structure ReportRow where
  url : Str
  keyword : Str
  clicks : Int
  inTitle : Bool
  inMeta : Bool
  inH1 : Bool
  inH2 : Bool
  inBody : BodyFlag
deriving DecidableEq

/-- Model of Python `int(...)` on the rationals that reach the report
(truncation toward zero). -/
def pyInt (q : ℚ) : Int := if q < 0 then ⌈q⌉ else ⌊q⌋

theorem pyInt_mono {a b : ℚ} (h : a ≤ b) : pyInt a ≤ pyInt b := by
  unfold pyInt
  by_cases ha : a < 0 <;> by_cases hb : b < 0
  · rw [if_pos ha, if_pos hb]
    exact Int.ceil_mono h
  · rw [if_pos ha, if_neg hb]
    calc ⌈a⌉ ≤ 0 := Int.ceil_le.mpr (by simpa using le_of_lt ha)
    _ ≤ ⌊b⌋ := Int.le_floor.mpr (by simpa using not_lt.mp hb)
  · exact absurd (lt_of_le_of_lt h hb) ha
  · rw [if_neg ha, if_neg hb]
    exact Int.floor_mono h

/-- Model of `crawl_df[crawl_df['URL'] == url]` followed by `iloc[0]`
(app.py lines 396-398). -/
def lookupCrawl (crawl : List CrawlRow) (u : Str) : Option CrawlRow :=
  (crawl.filter (fun c => decide (c.url = u))).head?

/-- Title for a URL, empty when the URL has no crawl row (app.py lines
399 and 413). -/
def titleFor (crawl : List CrawlRow) (u : Str) : Str :=
  match lookupCrawl crawl u with
  | some c => c.title
  | none => []

/-- H1 for a URL, empty when the URL has no crawl row. -/
def h1For (crawl : List CrawlRow) (u : Str) : Str :=
  match lookupCrawl crawl u with
  | some c => c.h1
  | none => []

/-- Meta description for a URL, empty when the URL has no crawl row. -/
def metaFor (crawl : List CrawlRow) (u : Str) : Str :=
  match lookupCrawl crawl u with
  | some c => c.metaDesc
  | none => []

/-- Body copy for a URL, empty when the URL has no crawl row. -/
def copyFor (crawl : List CrawlRow) (u : Str) : Str :=
  match lookupCrawl crawl u with
  | some c => c.copy
  | none => []

/-- The five H2 columns joined with spaces (app.py lines 405-411), empty
when the URL has no crawl row (app.py line 413). -/
def h2For (crawl : List CrawlRow) (u : Str) : Str :=
  match lookupCrawl crawl u with
  | some c => c.h2a ++ [' '] ++ c.h2b ++ [' '] ++ c.h2c ++ [' '] ++ c.h2d ++ [' '] ++ c.h2e
  | none => []

/-- Conversion of a matcher verdict for the four structural fields:
`None` becomes `False` (app.py lines 434-437). -/
def flagOf (o : Option Bool) : Bool := o.getD false

/-- Conversion of a matcher verdict for the Body field: `None` becomes the
`"No Data"` sentinel (app.py lines 427-428). -/
def bodyOf : Option Bool → BodyFlag
  | none => BodyFlag.noData
  | some b => BodyFlag.val b

/-- One report row for a cleaned GSC row (app.py lines 416-439): content is
resolved by the row's URL and the matcher is invoked per field. -/
def mkReportRow (crawl : List CrawlRow) (r : CleanRow) : ReportRow :=
  { url := r.url
    keyword := r.keyword
    clicks := pyInt r.clicks
    inTitle := flagOf (check_keyword_presence (some r.keyword) (some (titleFor crawl r.url)))
    inMeta := flagOf (check_keyword_presence (some r.keyword) (some (metaFor crawl r.url)))
    inH1 := flagOf (check_keyword_presence (some r.keyword) (some (h1For crawl r.url)))
    inH2 := flagOf (check_keyword_presence (some r.keyword) (some (h2For crawl r.url)))
    inBody := bodyOf (check_keyword_presence (some r.keyword) (some (copyFor crawl r.url))) }

/-- First-occurrence deduplication, the order `pandas.Series.unique`
returns URLs in (app.py line 392). -/
def dedup : List Str → List Str
  | [] => []
  | x :: xs => x :: dedup (xs.filter (fun y => decide (y ≠ x)))
termination_by l => l.length
decreasing_by
  simp only [List.length_cons]
  exact Nat.lt_succ_of_le (List.length_filter_le _ _)

/-- Final-report sort key (`sort_values(['URL', 'Clicks'])` on the report
dataframe, app.py line 444), with the integer clicks of the report. -/
def finalLe (r₁ r₂ : ReportRow) : Bool := keyLe r₁.url r₂.url r₁.clicks r₂.clicks

/-- The block of report rows one URL contributes: the URL's rows in cleaned
order, capped at `topN` (app.py line 393), one report row each. -/
def urlBlock (gsc : List CleanRow) (crawl : List CrawlRow) (topN : Nat) (u : Str) :
    List ReportRow :=
  ((gsc.filter (fun r => decide (r.url = u))).take topN).map (fun r => mkReportRow crawl r)

/-- Model of `create_striking_distance_report` (app.py lines 387-446): per
unique URL in order, at most `topN` leading rows become report rows, and
the report is re-sorted by URL ascending / clicks descending. -/
def create_striking_distance_report (gsc : List CleanRow) (crawl : List CrawlRow)
    (topN : Nat) : List ReportRow :=
  insSort finalLe
    ((dedup (gsc.map (fun r => r.url))).flatMap (fun u => urlBlock gsc crawl topN u))

theorem mem_dedup {a : Str} : ∀ {l : List Str}, a ∈ dedup l ↔ a ∈ l := by
  intro l
  induction l using dedup.induct with
  | case1 => simp [dedup]
  | case2 x xs ih =>
    simp only [dedup, List.mem_cons, ih, List.mem_filter]
    by_cases hax : a = x
    · simp [hax]
    · simp [hax]

theorem nodup_dedup : ∀ (l : List Str), (dedup l).Nodup := by
  intro l
  induction l using dedup.induct with
  | case1 => simp [dedup]
  | case2 x xs ih =>
    simp only [dedup, List.nodup_cons]
    refine ⟨?_, ih⟩
    intro hx
    have := (List.mem_filter.mp (mem_dedup.mp hx)).2
    simp at this

theorem mem_urlBlock_url {gsc : List CleanRow} {crawl : List CrawlRow} {topN : Nat}
    {u : Str} {row : ReportRow} (h : row ∈ urlBlock gsc crawl topN u) : row.url = u := by
  rcases List.mem_map.mp h with ⟨r, hr, rfl⟩
  have hmem : r ∈ gsc.filter (fun r => decide (r.url = u)) := List.mem_of_mem_take hr
  have := (List.mem_filter.mp hmem).2
  simpa [mkReportRow] using of_decide_eq_true this

theorem filter_flatMap_urlBlock (gsc : List CleanRow) (crawl : List CrawlRow)
    (topN : Nat) (u : Str) :
    ∀ (urls : List Str), urls.Nodup →
      ((urls.flatMap (fun v => urlBlock gsc crawl topN v)).filter
          (fun row => decide (row.url = u)))
        = if u ∈ urls then urlBlock gsc crawl topN u else [] := by
  intro urls hnd
  induction urls with
  | nil => simp
  | cons v vs ih =>
    rcases List.nodup_cons.mp hnd with ⟨hv, hnd'⟩
    rw [List.flatMap_cons, List.filter_append, ih hnd']
    by_cases huv : u = v
    · subst huv
      rw [if_neg hv, if_pos (List.mem_cons_self u vs), List.append_nil]
      exact List.filter_eq_self.mpr
        (fun row hrow => decide_eq_true (mem_urlBlock_url hrow))
    · have hnilv : (urlBlock gsc crawl topN v).filter (fun row => decide (row.url = u)) = [] :=
        List.filter_eq_nil_iff.mpr (fun row hrow hdec => by
          exact huv ((of_decide_eq_true hdec).symm.trans (mem_urlBlock_url hrow)))
      rw [hnilv, List.nil_append]
      by_cases hvs : u ∈ vs
      · rw [if_pos hvs, if_pos (List.mem_cons_of_mem v hvs)]
      · rw [if_neg hvs, if_neg (by simp [List.mem_cons, huv, hvs])]

theorem rowLe_trans : ∀ a b c : CleanRow,
    rowLe a b = true → rowLe b c = true → rowLe a c = true :=
  fun _ _ _ h₁ h₂ => keyLe_trans h₁ h₂

theorem rowLe_total : ∀ a b : CleanRow, rowLe a b = true ∨ rowLe b a = true :=
  fun a b => keyLe_total a.url b.url a.clicks b.clicks

theorem finalLe_trans : ∀ a b c : ReportRow,
    finalLe a b = true → finalLe b c = true → finalLe a c = true :=
  fun _ _ _ h₁ h₂ => keyLe_trans h₁ h₂

theorem finalLe_total : ∀ a b : ReportRow, finalLe a b = true ∨ finalLe b a = true :=
  fun a b => keyLe_total a.url b.url a.clicks b.clicks

theorem clicksDescLe_trans : ∀ a b c : CleanRow,
    clicksDescLe a b = true → clicksDescLe b c = true → clicksDescLe a c = true := by
  intro a b c h₁ h₂
  exact decide_eq_true (le_trans (of_decide_eq_true h₂) (of_decide_eq_true h₁))

theorem clicksDescLe_total : ∀ a b : CleanRow,
    clicksDescLe a b = true ∨ clicksDescLe b a = true := by
  intro a b
  rcases le_total a.clicks b.clicks with h | h
  · exact Or.inr (decide_eq_true h)
  · exact Or.inl (decide_eq_true h)

/-- Claim C1: for every cleaned performance table and `top_n = k`, the
emitted report has at most `k` rows per URL; the rows a URL contributes are
exactly the report rows of the first `k` entries of the processor's per-URL
ordering; that per-URL ordering is the stable clicks-descending sort of the
URL's cleaned input rows (so equal-click rows keep their original relative
input order); and every selected row has at least as many clicks as every
unselected row of the same URL. -/
theorem striking_distance_topn (rows : List RawRow) (hasPos : Bool)
    (branded excluded : List Str) (crawl : List CrawlRow) (k : Nat) (u : Str) :
    ((create_striking_distance_report (process_gsc_data rows hasPos branded excluded)
        crawl k).filter (fun row => decide (row.url = u))).length ≤ k ∧
    (create_striking_distance_report (process_gsc_data rows hasPos branded excluded)
        crawl k).filter (fun row => decide (row.url = u))
      = (((process_gsc_data rows hasPos branded excluded).filter
            (fun r => decide (r.url = u))).take k).map (fun r => mkReportRow crawl r) ∧
    (process_gsc_data rows hasPos branded excluded).filter (fun r => decide (r.url = u))
      = insSort clicksDescLe
          ((cleanStages rows hasPos branded excluded).filter (fun r => decide (r.url = u))) ∧
    ∀ r ∈ ((process_gsc_data rows hasPos branded excluded).filter
            (fun r => decide (r.url = u))).take k,
      ∀ r' ∈ ((process_gsc_data rows hasPos branded excluded).filter
            (fun r => decide (r.url = u))).drop k,
        r'.clicks ≤ r.clicks := by
  have hG3 : (process_gsc_data rows hasPos branded excluded).filter
        (fun r => decide (r.url = u))
      = insSort clicksDescLe
          ((cleanStages rows hasPos branded excluded).filter (fun r => decide (r.url = u))) := by
    simp only [process_gsc_data]
    rw [insSort_filter rowLe_trans rowLe_total]
    apply insSort_congr
    intro a ha b hb
    have hau : a.url = u := of_decide_eq_true (List.mem_filter.mp ha).2
    have hbu : b.url = u := of_decide_eq_true (List.mem_filter.mp hb).2
    simp only [rowLe, clicksDescLe, hau, hbu, keyLe_same]
  have hGurl : ∀ r ∈ (process_gsc_data rows hasPos branded excluded).filter
      (fun r => decide (r.url = u)), r.url = u :=
    fun r hr => of_decide_eq_true (List.mem_filter.mp hr).2
  have hGsorted : SortedBy clicksDescLe
      ((process_gsc_data rows hasPos branded excluded).filter
        (fun r => decide (r.url = u))) := by
    rw [hG3]
    exact sortedBy_insSort clicksDescLe_trans clicksDescLe_total _
  have h2 : (create_striking_distance_report (process_gsc_data rows hasPos branded excluded)
        crawl k).filter (fun row => decide (row.url = u))
      = (((process_gsc_data rows hasPos branded excluded).filter
            (fun r => decide (r.url = u))).take k).map (fun r => mkReportRow crawl r) := by
    simp only [create_striking_distance_report]
    rw [insSort_filter finalLe_trans finalLe_total]
    rw [filter_flatMap_urlBlock (process_gsc_data rows hasPos branded excluded) crawl k u _
      (nodup_dedup _)]
    by_cases hu : u ∈ dedup ((process_gsc_data rows hasPos branded excluded).map
        (fun r => r.url))
    · rw [if_pos hu]
      simp only [urlBlock]
      have hs : SortedBy finalLe
          ((((process_gsc_data rows hasPos branded excluded).filter
              (fun r => decide (r.url = u))).take k).map (fun r => mkReportRow crawl r)) := by
        unfold SortedBy
        rw [List.pairwise_map]
        have htk : SortedBy clicksDescLe
            (((process_gsc_data rows hasPos branded excluded).filter
              (fun r => decide (r.url = u))).take k) :=
          List.Pairwise.sublist (List.take_sublist k _) hGsorted
        refine pairwise_imp_mem ?_ htk
        intro a ha b hb hab
        have hau : a.url = u := hGurl a (List.mem_of_mem_take ha)
        have hbu : b.url = u := hGurl b (List.mem_of_mem_take hb)
        show finalLe (mkReportRow crawl a) (mkReportRow crawl b) = true
        simp only [finalLe, mkReportRow, hau, hbu, keyLe_same]
        exact decide_eq_true (pyInt_mono (of_decide_eq_true hab))
      rw [insSort_of_sortedBy hs]
    · rw [if_neg hu]
      have hGnil : (process_gsc_data rows hasPos branded excluded).filter
          (fun r => decide (r.url = u)) = [] := by
        apply List.filter_eq_nil_iff.mpr
        intro r hr hdec
        exact hu (mem_dedup.mpr (List.mem_map.mpr ⟨r, hr, of_decide_eq_true hdec⟩))
      rw [hGnil]
      simp [insSort]
  refine ⟨?_, h2, hG3, ?_⟩
  · rw [h2, List.length_map]
    exact le_trans (List.length_take_le k _) (le_refl k)
  · have hsplit := hGsorted
    rw [← List.take_append_drop k ((process_gsc_data rows hasPos branded excluded).filter
      (fun r => decide (r.url = u)))] at hsplit
    have := (List.pairwise_append.mp hsplit).2.2
    intro r hr r' hr'
    exact of_decide_eq_true (this r hr r' hr')

/-- Concrete GSC row: `(url=A, q="blue shoes", clicks=50, pos=6)`. -/
def rawA : RawRow :=
  { url := some (("https://a.com").data), keyword := some (("blue shoes").data),
    clicks := some 50, pos := some 6 }

/-- Concrete GSC row: `(url=A, q="red shoes", clicks=5, pos=8)`. -/
def rawB : RawRow :=
  { url := some (("https://a.com").data), keyword := some (("red shoes").data),
    clicks := some 5, pos := some 8 }

/-- The cleaned row the processor produces from `rawA`. -/
def cleanA : CleanRow :=
  { url := ("https://a.com").data, keyword := ("blue shoes").data, clicks := 50, pos := 6 }

/-- The cleaned row the processor produces from `rawB`. -/
def cleanB : CleanRow :=
  { url := ("https://a.com").data, keyword := ("red shoes").data, clicks := 5, pos := 8 }

/-- Witness for the top-N theorem at a concrete two-row input with
`top_n = 1`: the selected row dominates the unselected one in clicks. -/
theorem striking_distance_topn_witness : cleanB.clicks ≤ cleanA.clicks :=
  (striking_distance_topn [rawA, rawB] true [] [] [] 1
      (("https://a.com").data)).2.2.2 cleanA (by decide) cleanB (by decide)

/-- Claim C2: evaluation of the exclusion filter at the spec's own test
pair for exclusion list `["/blogs/news"]`.  The code returns `False` for
`https://site.com/blogs/news` (the claim expects `True`): the schemeless
fallback compares against the suffix `"/" + "/blogs/news"`, whose doubled
slash never matches, so entries that begin with `/` can only match a URL
that equals them verbatim. -/
theorem exclusion_entry_eval :
    should_exclude_url (("https://site.com/blogs/news").data) [("/blogs/news").data] = false ∧
    should_exclude_url (("https://site.com/blogs/news/article-1").data)
      [("/blogs/news").data] = false := by
  decide

theorem startsList_append_left {xs ys l : Str} (h : startsList (xs ++ ys) l = true) :
    startsList xs l = true := by
  induction xs generalizing l with
  | nil => rfl
  | cons a as ih =>
    cases l with
    | nil => simp [startsList] at h
    | cons b bs =>
      simp only [List.cons_append, startsList, Bool.and_eq_true] at h ⊢
      exact ⟨h.1, ih h.2⟩

theorem inStr_append_left {xs ys t : Str} (h : inStr (xs ++ ys) t = true) :
    inStr xs t = true := by
  induction t with
  | nil =>
    simp only [inStr] at h ⊢
    exact startsList_append_left h
  | cons c cs ih =>
    simp only [inStr, Bool.or_eq_true] at h ⊢
    rcases h with h | h
    · exact Or.inl (startsList_append_left h)
    · exact Or.inr (ih h)

theorem punctStage_false {kl tl : Str} (h : inStr kl tl = false) :
    punctStage kl tl = false := by
  have hall : ∀ c, inStr (kl ++ [c]) tl = false := by
    intro c
    cases hc : inStr (kl ++ [c]) tl with
    | false => rfl
    | true =>
      have := inStr_append_left hc
      rw [h] at this
      exact Bool.noConfusion this
  simp [punctStage, hall]

/-- Claim C10: the sentence-boundary punctuation variants never change the
matcher's verdict — whenever the text contains the query followed by `?`,
`!`, `.` or `:` it already contains the query, so the matcher equals the
matcher with the punctuation branch removed, on all inputs. -/
theorem punct_branch_redundant (q t : Option Str) :
    check_keyword_presence q t = check_keyword_presence_nopunct q t := by
  cases q with
  | none => cases t <;> rfl
  | some kw =>
    cases t with
    | none => rfl
    | some txt =>
      simp only [check_keyword_presence, check_keyword_presence_nopunct]
      by_cases h0 : kw = [] ∨ txt = []
      · rw [if_pos h0, if_pos h0]
      · rw [if_neg h0, if_neg h0]
        cases hd : inStr (pyStrip (pyLower kw)) (pyLower txt) with
        | true => simp [hd]
        | false => simp [hd, punctStage_false hd]

/-- Claim C4: evaluation at query `"boxes"` and text `"box"`.  The premises
of the claim hold (the query is its own lowercased trimmed form, it ends
in `es`, and the text contains the query with `es` removed), yet the code
answers `False`: the `endswith('s')` branch captures every query ending in
`es` and only tries stripping one `s`, leaving the `endswith('es')` branch
unreachable. -/
theorem plural_es_shadowed :
    pyStrip (pyLower (("boxes").data)) = ("boxes").data ∧
    endsList (('e') :: ('s') :: []) (("boxes").data) = true ∧
    inStr (("box").data) (pyLower (("box").data)) = true ∧
    check_keyword_presence (some (("boxes").data)) (some (("box").data)) = some false := by
  decide

theorem check_text_empty (q : Option Str) : check_keyword_presence q (some []) = none := by
  cases q with
  | none => rfl
  | some kw => simp [check_keyword_presence]

/-- Claim C5: the matcher is `none` (Unknown) exactly on missing/empty
input: empty text, empty query and missing query all give `none`, and two
non-empty inputs always give a definite `some` verdict. -/
theorem matcher_tri_state (q t : Option Str) (qs ts : Str) :
    check_keyword_presence q (some []) = none ∧
    check_keyword_presence (some []) t = none ∧
    check_keyword_presence none t = none ∧
    (qs ≠ [] → ts ≠ [] → ∃ b, check_keyword_presence (some qs) (some ts) = some b) := by
  refine ⟨check_text_empty q, ?_, ?_, ?_⟩
  · cases t with
    | none => rfl
    | some txt => simp [check_keyword_presence]
  · cases t <;> rfl
  · intro hq ht
    simp only [check_keyword_presence]
    rw [if_neg (by simp [hq, ht])]
    split
    · exact ⟨true, rfl⟩
    · split
      · exact ⟨true, rfl⟩
      · split
        · exact ⟨true, rfl⟩
        · exact ⟨_, rfl⟩

/-- Witness for the tri-state theorem at the concrete non-empty pair
`("a", "b")`. -/
theorem matcher_tri_state_witness :
    ∃ b, check_keyword_presence (some (("a").data)) (some (("b").data)) = some b :=
  (matcher_tri_state none none (("a").data) (("b").data)).2.2.2 (by decide) (by decide)

/-- Claim C6: in every emitted row an Unknown verdict is mapped to the
`"No Data"` sentinel for the Body field and to `False` for the four
structural fields, and a URL with no crawl row yields all structural flags
`False` with Body `"No Data"` (the builder is total, so no row can fail). -/
theorem unknown_policy (crawl : List CrawlRow) (r : CleanRow) :
    (check_keyword_presence (some r.keyword) (some (copyFor crawl r.url)) = none →
      (mkReportRow crawl r).inBody = BodyFlag.noData) ∧
    (check_keyword_presence (some r.keyword) (some (titleFor crawl r.url)) = none →
      (mkReportRow crawl r).inTitle = false) ∧
    (check_keyword_presence (some r.keyword) (some (metaFor crawl r.url)) = none →
      (mkReportRow crawl r).inMeta = false) ∧
    (check_keyword_presence (some r.keyword) (some (h1For crawl r.url)) = none →
      (mkReportRow crawl r).inH1 = false) ∧
    (check_keyword_presence (some r.keyword) (some (h2For crawl r.url)) = none →
      (mkReportRow crawl r).inH2 = false) ∧
    (lookupCrawl crawl r.url = none →
      (mkReportRow crawl r).inTitle = false ∧ (mkReportRow crawl r).inMeta = false ∧
      (mkReportRow crawl r).inH1 = false ∧ (mkReportRow crawl r).inH2 = false ∧
      (mkReportRow crawl r).inBody = BodyFlag.noData) := by
  refine ⟨?_, ?_, ?_, ?_, ?_, ?_⟩
  · intro h; simp [mkReportRow, h, bodyOf]
  · intro h; simp [mkReportRow, h, flagOf]
  · intro h; simp [mkReportRow, h, flagOf]
  · intro h; simp [mkReportRow, h, flagOf]
  · intro h; simp [mkReportRow, h, flagOf]
  · intro h
    refine ⟨?_, ?_, ?_, ?_, ?_⟩ <;>
      simp [mkReportRow, flagOf, bodyOf, titleFor, metaFor, h1For, h2For, copyFor, h,
        check_text_empty]

/-- Witness: with an empty crawl table every URL lacks a content row, and
the emitted row for `cleanA` has the degraded flags. -/
theorem unknown_policy_witness :
    (mkReportRow [] cleanA).inTitle = false ∧ (mkReportRow [] cleanA).inMeta = false ∧
    (mkReportRow [] cleanA).inH1 = false ∧ (mkReportRow [] cleanA).inH2 = false ∧
    (mkReportRow [] cleanA).inBody = BodyFlag.noData :=
  (unknown_policy [] cleanA).2.2.2.2.2 rfl

/-- One exported CSV cell of a report row. -/
inductive Cell where
  | strC (s : Str)
  | intC (n : Int)
  | boolC (b : Bool)
  | bodyC (f : BodyFlag)
deriving DecidableEq

/-- The cells one report row contributes to the export, in the order of
the dict keys at app.py lines 430-439 (pandas keeps dict insertion order as
column order and `to_csv` emits columns in that order). -/
def rowCells (r : ReportRow) : List Cell :=
  [Cell.strC r.url, Cell.strC r.keyword, Cell.intC r.clicks, Cell.boolC r.inTitle,
   Cell.boolC r.inMeta, Cell.boolC r.inH1, Cell.boolC r.inH2, Cell.bodyC r.inBody]

/-- The exported header: the dict keys of app.py lines 430-439 in
insertion order. -/
def reportColumns : List String :=
  [("URL"), ("Keyword"), ("Clicks"), ("In Title"), ("In Meta"), ("In H1"), ("In H2"),
   ("In Body")]

/-- Claim C3 counterexample: the export has no `Position` column, and the
concrete emitted row for `cleanA` (clicks 50, position 6) consists of
exactly eight cells — url, query, clicks and the five flags — none of which
carries the row's position value. -/
theorem report_position_missing :
    reportColumns.contains ("Position") = false ∧
    rowCells (mkReportRow [] cleanA) =
      [Cell.strC (("https://a.com").data), Cell.strC (("blue shoes").data), Cell.intC 50,
       Cell.boolC false, Cell.boolC false, Cell.boolC false, Cell.boolC false,
       Cell.bodyC BodyFlag.noData] := by
  decide

/-- Claim C3 amended: every report row carries exactly the fields url,
query, clicks, in_title, in_meta, in_h1, in_h2, in_body, in that order —
the position value is not part of the emitted report. -/
theorem report_row_fields (r : ReportRow) :
    rowCells r =
      [Cell.strC r.url, Cell.strC r.keyword, Cell.intC r.clicks, Cell.boolC r.inTitle,
       Cell.boolC r.inMeta, Cell.boolC r.inH1, Cell.boolC r.inH2, Cell.bodyC r.inBody] ∧
    reportColumns =
      [("URL"), ("Keyword"), ("Clicks"), ("In Title"), ("In Meta"), ("In H1"), ("In H2"),
       ("In Body")] :=
  ⟨rfl, rfl⟩

/-- Concrete GSC row whose position cell is unparseable. -/
def rawNoPos : RawRow :=
  { url := some (("https://a.com/x").data), keyword := some (("shoes").data),
    clicks := some 5, pos := none }

/-- Claim C7 counterexample: with a position column present but no
parseable position, the processor keeps the row and assigns position
`10.0`, which is not the midpoint `12` of the band `[4, 20]`. -/
theorem position_default_counterexample :
    (process_gsc_data [rawNoPos] true [] []).map (fun r => r.pos) = [default_position] ∧
    default_position = 10 ∧
    (min_position + max_position) / 2 = 12 ∧
    default_position ≠ (min_position + max_position) / 2 := by
  refine ⟨by decide, rfl, ?_, ?_⟩
  · norm_num [min_position, max_position]
  · norm_num [min_position, max_position, default_position]

/-- Claim C7 amended: when every otherwise-surviving row lacks a parseable
position, the position stage retains all rows and assigns each the fixed
default `10.0` (which is not the band midpoint). -/
theorem position_fallback (mids : List MidRow) (h : ∀ r ∈ mids, r.pos = none) :
    positionStage true mids = mids.map (fun r => toClean r default_position) ∧
    (positionStage true mids).length = mids.length ∧
    ∀ r ∈ positionStage true mids, r.pos = default_position := by
  have hwp : mids.filterMap (fun r => r.pos.map (toClean r)) = [] := by
    apply List.filterMap_eq_nil_iff.mpr
    intro r hr
    rw [h r hr]
    rfl
  have hmain : positionStage true mids = mids.map (fun r => toClean r default_position) := by
    unfold positionStage
    rw [if_pos rfl, hwp]
    simp
  refine ⟨hmain, ?_, ?_⟩
  · rw [hmain, List.length_map]
  · intro r hr
    rw [hmain] at hr
    rcases List.mem_map.mp hr with ⟨m, _, rfl⟩
    rfl

/-- Concrete mid row with an unparseable position. -/
def midNoPos : MidRow :=
  { url := ("https://a.com/x").data, keyword := ("shoes").data, clicks := 5, pos := none }

/-- Witness for the position fallback at a concrete one-row table. -/
theorem position_fallback_witness :
    positionStage true [midNoPos] = [toClean midNoPos default_position] :=
  (position_fallback [midNoPos] (by decide)).1

theorem dropWhile_head_false {p : Char → Bool} :
    ∀ {l : Str} {c : Char} {cs : Str}, l.dropWhile p = c :: cs → p c = false := by
  intro l
  induction l with
  | nil => intro c cs h; cases h
  | cons a as ih =>
    intro c cs h
    rw [List.dropWhile_cons] at h
    split at h
    · exact ih h
    · rename_i hpa
      cases h
      simpa using hpa

theorem endsWithP_rstripP (p : Char → Bool) (s : Str) :
    endsWithP p (rstripP p s) = false := by
  unfold endsWithP rstripP
  rw [List.reverse_reverse]
  cases h : s.reverse.dropWhile p with
  | nil => rfl
  | cons c cs => exact dropWhile_head_false h

theorem rstripP_eq_self {p : Char → Bool} {s : Str} (h : endsWithP p s = false) :
    rstripP p s = s := by
  unfold rstripP
  cases hr : s.reverse with
  | nil =>
    have hs : s = [] := by simpa using congrArg List.reverse hr
    simp [hs]
  | cons c cs =>
    unfold endsWithP at h
    rw [hr] at h
    have hpc : p c = false := h
    rw [List.dropWhile_cons, if_neg (by simp [hpc]), ← hr, List.reverse_reverse]

theorem rstripP_front (p : Char → Bool) (s : Str) : rstripP p s <+: s := by
  rcases List.dropWhile_suffix (l := s.reverse) p with ⟨t, ht⟩
  refine ⟨t.reverse, ?_⟩
  rw [rstripP, ← List.reverse_append, ht, List.reverse_reverse]

theorem head_of_prefix {l₁ l₂ : Str} {c : Char} (h : l₁ <+: l₂)
    (hh : l₁.head? = some c) : l₂.head? = some c := by
  rcases h with ⟨t, rfl⟩
  cases l₁ with
  | nil => cases hh
  | cons a as => simpa using hh

theorem pyStrip_head_not_ws {s : Str} {c : Char} (h : (pyStrip s).head? = some c) :
    wsP c = false := by
  unfold pyStrip at h
  have h2 := head_of_prefix (rstripP_front wsP (s.dropWhile wsP)) h
  cases hd : s.dropWhile wsP with
  | nil => rw [hd] at h2; cases h2
  | cons a as =>
    rw [hd] at h2
    have hac : a = c := by simpa using h2
    subst hac
    exact dropWhile_head_false hd

/-- Claim C8 counterexample: at the claim's own example
`"https://a.com/x//"`, `clean_url` removes both trailing slashes — the
result is `"https://a.com/x"`, which does not end in a slash. -/
theorem clean_url_two_slashes :
    endsWithP slashP (clean_url (some (("https://a.com/x//").data))) = false ∧
    clean_url (some (("https://a.com/x//").data)) = ("https://a.com/x").data := by
  decide

/-- Claim C8 amended: `clean_url` removes all trailing slashes (Python
`rstrip('/')` is a repeated trim), so its output never ends in a slash. -/
theorem clean_url_no_trailing_slash (u : Option Str) :
    endsWithP slashP (clean_url u) = false := by
  cases u with
  | none => rfl
  | some s => exact endsWithP_rstripP slashP (pyStrip s)

/-- Claim C9 counterexample: `clean_url` is not idempotent — on `"a /"`
the first pass strips the slash and exposes a trailing space
(`"a "`), which only the second pass removes (`"a"`). -/
theorem clean_url_not_idempotent :
    clean_url (some (clean_url (some (("a /").data)))) ≠ clean_url (some (("a /").data)) ∧
    clean_url (some (("a /").data)) = ("a ").data ∧
    clean_url (some (("a ").data)) = ("a").data := by
  decide

/-- Claim C9 amended: `clean_url` is idempotent on every input whose
cleaned form does not end in whitespace (in particular on every input
without whitespace); in general stripping trailing slashes can expose
trailing whitespace that only a second pass removes. -/
theorem clean_url_idem_of_no_trailing_ws (u : Str)
    (h : endsWithP wsP (clean_url (some u)) = false) :
    clean_url (some (clean_url (some u))) = clean_url (some u) := by
  have hdw : (clean_url (some u)).dropWhile wsP = clean_url (some u) := by
    cases hv : clean_url (some u) with
    | nil => rfl
    | cons c cs =>
      have hhead : (pyStrip u).head? = some c := by
        refine head_of_prefix (rstripP_front slashP (pyStrip u)) ?_
        show (clean_url (some u)).head? = some c
        rw [hv]
        rfl
      have hc : wsP c = false := pyStrip_head_not_ws hhead
      rw [List.dropWhile_cons, if_neg (by simp [hc])]
  show rstripP slashP (rstripP wsP ((clean_url (some u)).dropWhile wsP)) = clean_url (some u)
  rw [hdw, rstripP_eq_self h]
  exact rstripP_eq_self (endsWithP_rstripP slashP (pyStrip u))

/-- Witness: idempotence holds at the whitespace-free input
`"https://a.com/x//"`. -/
theorem clean_url_idem_witness :
    clean_url (some (clean_url (some (("https://a.com/x//").data)))) =
      clean_url (some (("https://a.com/x//").data)) :=
  clean_url_idem_of_no_trailing_ws (("https://a.com/x//").data) (by decide)

example : check_keyword_presence (some (("shoe").data)) (some (("i love these shoes").data)) = some true := by decide
example : check_keyword_presence (some (("shoes").data)) (some (("one shoe").data)) = some true := by decide
example : check_keyword_presence (some (("quick fix").data)) (some (("a quick fix").data)) = some true := by decide
example : check_keyword_presence (some (("boxes").data)) (some (("box").data)) = some false := by decide
example : check_keyword_presence (some (("blue shoes").data)) (some (("buy blue shoes online").data)) = some true := by decide
example : clean_url (some (("https://a.com/x//").data)) = ("https://a.com/x").data := by decide
example : clean_url (some (("a /").data)) = ("a ").data := by decide
